import Mathlib

/-!
A shallow embedding of the document-conversion scripts of this repository
(the PDF/image-to-HTML converter, its generated viewer script, and the
directory-archiving script), together with proofs of the behavioural
properties stated in the design document.

Conventions of the embedding:
* machine integers of the scripts are `Nat`/`Int` (no overflow is possible
  in the modelled ranges);
* file contents are byte lists (`Bytes := List Nat`);
* a directory is an association list from file name to content, written in
  creation order; writing to an existing name overwrites it;
* fallible steps (a missing source file, an exception raised by a library
  call) are explicit `Bool`/`Except` data on the modelled job;
* the JavaScript of the generated viewer is modelled as a transition system
  on the script's mutable state; JavaScript numbers are modelled as exact
  rationals (for the zoom level) and as `Option Int` (for page numbers,
  `none` standing for `NaN`, the result of `parseInt` on non-numeric text).
-/

namespace PdfToHtml

abbrev Bytes := List Nat

/-! ### Decimal formatting (Python `f"{k:03d}"`) -/

/-- Fuel-indexed decimal digit expansion (most significant digit first). -/
def natDigitsAux : Nat → Nat → List Nat
  | 0, _ => []
  | fuel + 1, n => if n < 10 then [n] else natDigitsAux fuel (n / 10) ++ [n % 10]

/-- Decimal digits of `n`, most significant first; `natDigits 0 = [0]`. -/
def natDigits (n : Nat) : List Nat :=
  natDigitsAux (n + 1) n

/-- Value of a digit list, most significant digit first. -/
def ofDigits (ds : List Nat) : Nat :=
  ds.foldl (fun a d => 10 * a + d) 0

/-- The ASCII character of a decimal digit. -/
def digitChar (d : Nat) : Char := Char.ofNat (48 + d)

/-- Inverse of `digitChar` on decimal digits. -/
def charToDigit (c : Char) : Nat := c.toNat - 48

/-- Python `f"{k:03d}"`: the decimal numeral of `k`, left-padded with `'0'`
to width at least 3 (wider numerals are kept whole). -/
def format03 (k : Nat) : String :=
  String.mk ((List.replicate (3 - (natDigits k).length) 0 ++ natDigits k).map digitChar)

/-- Decode a string of decimal digit characters back to its value. -/
def decodeDigits (s : String) : Nat :=
  ofDigits (s.data.map charToDigit)

/-! ### Python string primitives used by the scripts -/

/-- Python `s.endswith(suffix)`. -/
def endsWithStr (s suffix : String) : Bool :=
  suffix.data.isSuffixOf s.data

/-- ASCII lowering of one character (Python `str.lower` on ASCII data). -/
def lowerChar (c : Char) : Char :=
  if 'A' ≤ c ∧ c ≤ 'Z' then Char.ofNat (c.toNat + 32) else c

/-- Python `str.lower` (the script only lowers ASCII file extensions). -/
def lowerStr (s : String) : String :=
  String.mk (s.data.map lowerChar)

/-- Python `os.path.splitext` for a path without directory separators
(the scripts only apply it to names returned by `os.listdir`): the split is
at the last dot, unless every character before that dot is itself a dot, in
which case the extension is empty. -/
def splitext (p : String) : String × String :=
  let l := p.data
  let k := (l.reverse.takeWhile (fun c => c ≠ '.')).length
  if k = l.length then (p, "")
  else
    let i := l.length - k - 1
    if (l.take i).all (fun c => c = '.') then (p, "")
    else (String.mk (l.take i), String.mk (l.drop i))

/-! ### Output model: directories, metadata, bundles -/

/-- A JSON scalar as written by `json.dump` for the metadata records. -/
inductive JsonValue where
  | str (s : String)
  | num (n : Nat)
deriving DecidableEq

/-- A directory: file names with their contents, in creation order. -/
abbrev Dir := List (String × Bytes)

/-- Writing a file: overwrite an existing name, otherwise create it last. -/
def writeFile (dir : Dir) (name : String) (content : Bytes) : Dir :=
  if name ∈ dir.map Prod.fst then
    dir.map (fun e => if e.1 = name then (name, content) else e)
  else dir ++ [(name, content)]

/-- Apply a sequence of file writes to a directory. -/
def applyWrites (dir : Dir) (ws : List (String × Bytes)) : Dir :=
  ws.foldl (fun d w => writeFile d w.1 w.2) dir

/-! ### The PDF rasterizer (`convert_pdf_to_images`) -/

/-- A source PDF document: the ordered list of its pages (page content is
abstract raster data). `page_count` is the number of pages as reported by
the PDF library. -/
structure PdfDocument where
  pages : List Bytes
deriving DecidableEq

/-- `fitz` `pdf_document.page_count`. -/
def page_count (d : PdfDocument) : Nat := d.pages.length

/-- Filename of page `k` (1-based): Python `f"page_{page_num + 1:03d}.png"`. -/
def pageFileName (k : Nat) : String :=
  "page_" ++ format03 k ++ ".png"

/-- `convert_pdf_to_images`: renders every page of the document, in source
order, writing `page_{i+1:03d}.png` for page index `i`; returns the list of
file writes performed into the `images/` directory and the page count the
method returns. `render` stands for the pipeline
`get_pixmap → tobytes → PIL open → save(optimize)` applied to one page. -/
def convert_pdf_to_images (render : Bytes → Bytes) (d : PdfDocument) :
    List (String × Bytes) × Nat :=
  (((List.range (page_count d)).map
      fun i => (pageFileName (i + 1), render (d.pages.getD i []))),
   page_count d)

/-! ### Metadata records -/

/-- Look a key up in a metadata record. -/
def lookupField (m : List (String × JsonValue)) (k : String) : Option JsonValue :=
  (m.find? (fun e => e.1 == k)).map (fun e => e.2)

/-- The dictionary written by `save_metadata` for a PDF bundle, in
insertion order. -/
def pdfMetadata (title : String) (pc : Nat) (pdf_filename : String) (dpi : Nat) :
    List (String × JsonValue) :=
  [("title", .str title), ("page_count", .num pc),
   ("pdf_filename", .str pdf_filename), ("dpi", .num dpi)]

/-- The dictionary written for an image bundle by `convert_single_image`,
in insertion order. -/
def imageMetadata (title image_filename fmt : String) : List (String × JsonValue) :=
  [("title", .str title), ("type", .str "image"),
   ("image_filename", .str image_filename), ("format", .str fmt)]

/-! ### Bundles and the per-document conversions -/

/-- The parameters substituted into the viewer HTML template: the script
constants `totalPages` and `pdfFilename` and the page title. The template
is otherwise fixed text; its script functions are modelled below as the
transition systems `navStep` and `zoomStep`. -/
structure ViewerConfig where
  title : String
  totalPages : Nat
  pdfFilename : String
deriving DecidableEq

/-- `get_html_template`: pure string substitution of the three parameters. -/
def get_html_template (title : String) (pc : Nat) (pdf_filename : String) : ViewerConfig :=
  { title := title, totalPages := pc, pdfFilename := pdf_filename }

/-- A produced PDF bundle: the `images/` directory, `index.html`
(represented by its substituted parameters) and `metadata.json`. -/
structure Bundle where
  images : Dir
  viewer : ViewerConfig
  metadata : List (String × JsonValue)
deriving DecidableEq

/-- Deciding equality of modelled fallible outcomes. -/
instance exceptDecEq {α β : Type} [DecidableEq α] [DecidableEq β] :
    DecidableEq (Except α β) := fun x y =>
  match x, y with
  | .ok a, .ok b =>
      if h : a = b then isTrue (by rw [h])
      else isFalse (fun hc => h (by injection hc))
  | .error a, .error b =>
      if h : a = b then isTrue (by rw [h])
      else isFalse (fun hc => h (by injection hc))
  | .ok _, .error _ => isFalse (fun hc => Except.noConfusion hc)
  | .error _, .ok _ => isFalse (fun hc => Except.noConfusion hc)

/-- One PDF conversion job: the listed file name, whether
`os.path.exists` holds for the joined source path, and the outcome of
opening/rendering the document (`.error` models an exception raised inside
the `try` block). -/
structure PdfJob where
  filename : String
  srcExists : Bool
  source : Except String PdfDocument
deriving DecidableEq

/-- `convert_single_pdf`: aborts with `False` when the source is missing or
an exception is raised; otherwise produces the bundle and returns `True`. -/
def convert_single_pdf (render : Bytes → Bytes) (dpi : Nat) (j : PdfJob) :
    Option Bundle × Bool :=
  if j.srcExists = false then (none, false)
  else
    match j.source with
    | .error _ => (none, false)
    | .ok d =>
        let doc_name := (splitext j.filename).1
        let ws := (convert_pdf_to_images render d).1
        let pc := (convert_pdf_to_images render d).2
        (some { images := applyWrites [] ws,
                viewer := get_html_template doc_name pc j.filename,
                metadata := pdfMetadata doc_name pc j.filename dpi }, true)

/-! ### The batch drivers -/

/-- Outcome of a batch run: the early "no files found" report, the image
driver's "folder missing" report, or the final `successes/total` summary. -/
inductive BatchReport where
  | noFilesFound
  | folderMissing
  | summary (successes total : Nat)
deriving DecidableEq

/-- The number of successful conversions a report conveys: the early
reports ("no files found", "folder missing") convey zero conversions. -/
def successesReported : BatchReport → Nat
  | .summary s _ => s
  | _ => 0

/-- PDF selection of `convert_all`:
`[f for f in os.listdir(pdf_folder) if f.endswith('.pdf')]`. -/
def pdfFilesOf (listing : List PdfJob) : List PdfJob :=
  listing.filter (fun j => endsWithStr j.filename ".pdf")

/-- `convert_all`: filters the listing to `.pdf` names, returns early when
none are found, otherwise converts each in order, counting successes. -/
def convert_all (render : Bytes → Bytes) (dpi : Nat) (listing : List PdfJob) :
    BatchReport :=
  let pdf_files := pdfFilesOf listing
  if pdf_files.isEmpty then .noFilesFound
  else
    .summary
      (pdf_files.foldl
        (fun acc j => if (convert_single_pdf render dpi j).2 then acc + 1 else acc) 0)
      pdf_files.length

/-! ### The single-image pipeline -/

/-- One image conversion job: listed name, whether `os.path.isfile` holds
for it, whether `os.path.exists` holds when converting, and the source
bytes (`.error` models an exception inside the `try` block). -/
structure ImageJob where
  filename : String
  isFile : Bool
  srcExists : Bool
  source : Except String Bytes
deriving DecidableEq

/-- A produced image bundle (the viewer page carries no page state that the
claims mention, so only `images/` and `metadata.json` are recorded). -/
structure ImageBundle where
  images : Dir
  metadata : List (String × JsonValue)
deriving DecidableEq

def supported_image_formats : List String :=
  [".jpg", ".jpeg", ".png", ".gif", ".bmp", ".svg"]

/-- `copy_image_to_output` models `shutil.copy2`: one write of the source
bytes, unchanged, under the source's base name, into `images/`. -/
def copy_image_to_output (images_dir : Dir) (filename : String) (content : Bytes) : Dir :=
  writeFile images_dir filename content

/-- `convert_single_image`: existence check, copy, HTML, metadata. -/
def convert_single_image (j : ImageJob) : Option ImageBundle × Bool :=
  if j.srcExists = false then (none, false)
  else
    match j.source with
    | .error _ => (none, false)
    | .ok content =>
        let image_name := (splitext j.filename).1
        (some { images := copy_image_to_output [] j.filename content,
                metadata := imageMetadata image_name j.filename (splitext j.filename).2 },
         true)

/-- Image selection of `convert_all_images`: regular files whose
lowercased extension is a supported format. -/
def imageEligible (j : ImageJob) : Bool :=
  j.isFile && supported_image_formats.contains (lowerStr (splitext j.filename).2)

def imageFilesOf (listing : List ImageJob) : List ImageJob :=
  listing.filter imageEligible

/-- `convert_all_images`: folder-existence check, selection, early return
when nothing is eligible, then per-image conversion with success count. -/
def convert_all_images (folderExists : Bool) (listing : List ImageJob) :
    BatchReport :=
  if folderExists = false then .folderMissing
  else
    let image_files := imageFilesOf listing
    if image_files.isEmpty then .noFilesFound
    else
      .summary
        (image_files.foldl
          (fun acc j => if (convert_single_image j).2 then acc + 1 else acc) 0)
        image_files.length

/-! ### The archiving script (`create_archive`) -/

/-- One regular file met by `os.walk`: its base name and its path relative
to the working directory (the `arcname` it would get in the archive). -/
structure WalkEntry where
  name : String
  relpath : String
deriving DecidableEq

/-- `os.path.basename(__file__)` for the packaging script. -/
def script_basename : String := "打包.py"

/-- `create_archive`: every file met by the walk is added unless its base
name equals the script's base name or ends in `.zip`; returns the entries
written, in walk order. -/
def create_archive (entries : List WalkEntry) : List WalkEntry :=
  entries.filter (fun e => !(e.name == script_basename || endsWithStr e.name ".zip"))

/-! ### The generated viewer script -/

inductive ZoomAction where
  | zin
  | zout
  | reset
deriving DecidableEq

/-- `zoomIn` / `zoomOut` / `resetZoom`; the zoom level is modelled as an
exact rational (the clamping argument only uses `min`/`max`, on which the
model and IEEE doubles agree). -/
def zoomStep (z : ℚ) : ZoomAction → ℚ
  | .zin => min (z + 2/10) 3
  | .zout => max (z - 2/10) (1/2)
  | .reset => 1

/-- Zoom level after a sequence of actions, from the initial `1.0`. -/
def zoomAfter (acts : List ZoomAction) : ℚ :=
  acts.foldl zoomStep 1

/-- A navigation action of the viewer: the page number entered into the
page input is its `parseInt` result, `none` standing for `NaN` (the result
on empty or non-numeric text). -/
inductive NavAction where
  | prev
  | next
  | jump (entered : Option Int)

/-- The script state: `currentPage` (`none` = `NaN`) and the arguments of
every `loadPage` call so far, in order. -/
structure NavState where
  currentPage : Option Int
  calls : List (Option Int)
deriving DecidableEq

def loadPage (s : NavState) (p : Option Int) : NavState :=
  { currentPage := p, calls := s.calls ++ [p] }

/-- JavaScript `a < b` on numbers: false when either side is `NaN`. -/
def jsLt : Option Int → Option Int → Bool
  | some a, some b => a < b
  | _, _ => false

/-- One step of `prevPage` / `nextPage` / `jumpToPage`. -/
def navStep (totalPages : Int) (s : NavState) : NavAction → NavState
  | .prev =>
      if jsLt (some 1) s.currentPage then loadPage s (s.currentPage.map (· - 1)) else s
  | .next =>
      if jsLt s.currentPage (some totalPages) then loadPage s (s.currentPage.map (· + 1))
      else s
  | .jump v =>
      let p1 := if jsLt v (some 1) then some 1 else v
      let p2 := if jsLt (some totalPages) p1 then some totalPages else p1
      loadPage s p2

/-- Run the viewer from its initial state (`currentPage = 1`, then the
`DOMContentLoaded` call `loadPage(1)`). -/
def navRun (totalPages : Int) (acts : List NavAction) : NavState :=
  acts.foldl (navStep totalPages) (loadPage { currentPage := some 1, calls := [] } (some 1))

/-- Whether a `loadPage` argument is a number inside `[1, totalPages]`. -/
def callInRange (totalPages : Int) : Option Int → Bool
  | some k => decide (1 ≤ k) && decide (k ≤ totalPages)
  | none => false

/-- A listed PDF-folder entry whose name carries the uppercase extension
`.PDF` (used to settle the case-sensitivity of the PDF selection). -/
def xPdfJob : PdfJob :=
  { filename := "X.PDF", srcExists := true, source := Except.ok { pages := [[0]] } }

/-- A listed image-folder entry whose name carries the uppercase extension
`.JPG` (used to settle the case-insensitivity of the image selection). -/
def xJpgJob : ImageJob :=
  { filename := "X.JPG", isFile := true, srcExists := true, source := Except.ok [0] }

/-! ### Helper lemmas -/

theorem natDigitsAux_fuel (f g n : Nat) (hf : n < f) (hg : n < g) :
    natDigitsAux f n = natDigitsAux g n := by
  induction f generalizing g n with
  | zero => omega
  | succ f ih =>
    cases g with
    | zero => omega
    | succ g =>
      have e1 : natDigitsAux (f + 1) n
          = if n < 10 then [n] else natDigitsAux f (n / 10) ++ [n % 10] := rfl
      have e2 : natDigitsAux (g + 1) n
          = if n < 10 then [n] else natDigitsAux g (n / 10) ++ [n % 10] := rfl
      rw [e1, e2]
      by_cases h : n < 10
      · simp [h]
      · have hdiv : n / 10 < n := Nat.div_lt_self (by omega) (by omega)
        rw [if_neg h, if_neg h, ih g (n / 10) (by omega) (by omega)]

theorem natDigits_eq (n : Nat) :
    natDigits n = if n < 10 then [n] else natDigits (n / 10) ++ [n % 10] := by
  by_cases h : n < 10
  · simp [natDigits, natDigitsAux, h]
  · have hdiv : n / 10 < n := Nat.div_lt_self (by omega) (by omega)
    have e1 : natDigits n
        = if n < 10 then [n] else natDigitsAux n (n / 10) ++ [n % 10] := rfl
    rw [e1, if_neg h, if_neg h,
      natDigitsAux_fuel n (n / 10 + 1) (n / 10) (by omega) (by omega)]
    rfl

theorem natDigits_lt (n : Nat) : ∀ d ∈ natDigits n, d < 10 := by
  induction n using Nat.strong_induction_on with
  | _ n ih =>
    rw [natDigits_eq]
    by_cases h : n < 10
    · simp [h]
    · have hn : 0 < n := by omega
      have hdiv : n / 10 < n := Nat.div_lt_self hn (by omega)
      simp only [h, if_false, List.mem_append, List.mem_singleton]
      rintro d (hd | rfl)
      · exact ih (n / 10) hdiv d hd
      · exact Nat.mod_lt n (by omega)

theorem foldl_digit_append (a : Nat) (ds : List Nat) (d : Nat) :
    (ds ++ [d]).foldl (fun a d => 10 * a + d) a =
      10 * ds.foldl (fun a d => 10 * a + d) a + d := by
  rw [List.foldl_append]
  rfl

theorem ofDigits_natDigits (n : Nat) : ofDigits (natDigits n) = n := by
  induction n using Nat.strong_induction_on with
  | _ n ih =>
    rw [natDigits_eq]
    by_cases h : n < 10
    · simp [h, ofDigits]
    · have hn : 0 < n := by omega
      have hdiv : n / 10 < n := Nat.div_lt_self hn (by omega)
      simp only [h, if_false]
      rw [ofDigits, foldl_digit_append]
      rw [show (natDigits (n / 10)).foldl (fun a d => 10 * a + d) 0
            = ofDigits (natDigits (n / 10)) from rfl]
      rw [ih (n / 10) hdiv]
      omega

theorem foldl_digit_replicate_zero (k : Nat) :
    (List.replicate k 0).foldl (fun a d => 10 * a + d) 0 = 0 := by
  induction k with
  | zero => rfl
  | succ k ih => simpa [List.replicate_succ] using ih

theorem ofDigits_replicate_zero_append (k : Nat) (ds : List Nat) :
    ofDigits (List.replicate k 0 ++ ds) = ofDigits ds := by
  unfold ofDigits
  rw [List.foldl_append, foldl_digit_replicate_zero]

theorem charToDigit_digitChar : ∀ d, d < 10 → charToDigit (digitChar d) = d := by
  decide

theorem decodeDigits_format03 (k : Nat) : decodeDigits (format03 k) = k := by
  have hdata : (format03 k).data
      = (List.replicate (3 - (natDigits k).length) 0 ++ natDigits k).map digitChar := rfl
  unfold decodeDigits
  rw [hdata, List.map_map]
  have hmap : (List.replicate (3 - (natDigits k).length) 0 ++ natDigits k).map
      (charToDigit ∘ digitChar) = List.replicate (3 - (natDigits k).length) 0 ++ natDigits k := by
    have : ∀ d ∈ List.replicate (3 - (natDigits k).length) 0 ++ natDigits k,
        (charToDigit ∘ digitChar) d = id d := by
      intro d hd
      rcases List.mem_append.mp hd with hd | hd
      · have := List.eq_of_mem_replicate hd
        subst this
        simp [charToDigit_digitChar 0 (by omega)]
      · simpa using charToDigit_digitChar d (natDigits_lt k d hd)
    rw [List.map_congr_left this, List.map_id]
  rw [hmap, ofDigits_replicate_zero_append, ofDigits_natDigits]

theorem format03_injective : Function.Injective format03 := by
  intro a b h
  have := congrArg decodeDigits h
  rwa [decodeDigits_format03, decodeDigits_format03] at this

theorem string_ext (a b : String) (h : a.data = b.data) : a = b := by
  cases a
  cases b
  exact congrArg String.mk h

theorem applyWrites_length (ws : List (String × Bytes)) (dir : Dir)
    (hn : (ws.map Prod.fst).Nodup)
    (hd : ∀ n ∈ ws.map Prod.fst, n ∉ dir.map Prod.fst) :
    (applyWrites dir ws).length = dir.length + ws.length := by
  induction ws generalizing dir with
  | nil => simp [applyWrites]
  | cons w ws ih =>
    have hw : w.1 ∉ dir.map Prod.fst := hd w.1 (by simp)
    have hstep : writeFile dir w.1 w.2 = dir ++ [(w.1, w.2)] := by
      unfold writeFile
      rw [if_neg hw]
    have happly : applyWrites dir (w :: ws) = applyWrites (dir ++ [(w.1, w.2)]) ws := by
      unfold applyWrites
      simp [List.foldl_cons, hstep]
    rw [happly, ih (dir ++ [(w.1, w.2)])]
    · simp
      omega
    · exact (List.nodup_cons.mp (by simpa using hn)).2
    · intro n hnmem
      have hne : n ≠ w.1 := by
        intro hcontra
        subst hcontra
        exact (List.nodup_cons.mp (by simpa using hn)).1 hnmem
      have hnd : n ∉ dir.map Prod.fst := hd n (by simp [hnmem])
      simp only [List.map_append, List.mem_append]
      rintro (hmem | hmem)
      · exact hnd hmem
      · simp at hmem
        exact hne hmem

theorem pageFileName_injective : Function.Injective pageFileName := by
  intro a b h
  unfold pageFileName at h
  have hdata := congrArg String.data h
  simp only [String.data_append] at hdata
  rw [List.append_assoc, List.append_assoc] at hdata
  have h1 := List.append_cancel_left hdata
  have h2 := List.append_cancel_right h1
  exact format03_injective (string_ext _ _ h2)

theorem convert_names_nodup (render : Bytes → Bytes) (d : PdfDocument) :
    ((convert_pdf_to_images render d).1.map Prod.fst).Nodup := by
  unfold convert_pdf_to_images
  simp only [List.map_map]
  have : (Prod.fst ∘ fun i => (pageFileName (i + 1), render (d.pages.getD i [])))
      = fun i => pageFileName (i + 1) := rfl
  rw [this]
  exact (List.nodup_range _).map
    (fun a b h => by simpa using pageFileName_injective h)

theorem foldl_count {α : Type} (p : α → Bool) (l : List α) (n : Nat) :
    l.foldl (fun acc j => if p j then acc + 1 else acc) n = n + l.countP p := by
  induction l generalizing n with
  | nil => simp
  | cons a l ih =>
    simp only [List.foldl_cons, List.countP_cons]
    by_cases h : p a = true
    · rw [if_pos h, ih, if_pos h]
      omega
    · rw [if_neg h, ih, if_neg h]
      omega

/-! ### The claims -/

/-- C1: for every successfully converted PDF document, the `page_count`
value written to `metadata.json` equals the number of page image files
written into the bundle's `images/` directory, and both equal the source
PDF's page count. -/
theorem pdf_bundle_page_count_invariant (render : Bytes → Bytes) (dpi : Nat)
    (j : PdfJob) (d : PdfDocument)
    (hex : j.srcExists = true) (hsrc : j.source = Except.ok d) :
    ∃ b, (convert_single_pdf render dpi j).1 = some b ∧
      lookupField b.metadata "page_count" = some (JsonValue.num (page_count d)) ∧
      b.images.length = page_count d ∧
      page_count d = d.pages.length := by
  refine ⟨{ images := applyWrites [] (convert_pdf_to_images render d).1,
            viewer := get_html_template (splitext j.filename).1 (page_count d) j.filename,
            metadata := pdfMetadata (splitext j.filename).1 (page_count d) j.filename dpi },
          ?_, ?_, ?_, rfl⟩
  · simp only [convert_single_pdf, hex, hsrc]
    simp
    exact ⟨rfl, rfl⟩
  · rfl
  · have hlen := applyWrites_length (convert_pdf_to_images render d).1 []
      (convert_names_nodup render d) (by simp)
    rw [hlen]
    simp [convert_pdf_to_images]

theorem pdf_bundle_page_count_invariant_witness :
    ∃ b, (convert_single_pdf (fun x => x) 200
        { filename := "doc.pdf", srcExists := true,
          source := Except.ok { pages := [[1], [2], [3]] } }).1 = some b ∧
      lookupField b.metadata "page_count"
        = some (JsonValue.num (page_count { pages := [[1], [2], [3]] })) ∧
      b.images.length = page_count { pages := [[1], [2], [3]] } ∧
      page_count { pages := [[1], [2], [3]] } = ([[1], [2], [3]] : List Bytes).length :=
  pdf_bundle_page_count_invariant (fun x => x) 200
    { filename := "doc.pdf", srcExists := true,
      source := Except.ok { pages := [[1], [2], [3]] } }
    { pages := [[1], [2], [3]] } rfl rfl

/-- C2: rasterizing an `n`-page PDF performs exactly `n` image-file writes,
in source page order, named `page_001.png` through `page_{n:03d}.png`: the
`k`-th write (1-based) is named with the decimal numeral of `k` left-padded
with zeros to width at least three, and all the names are distinct. -/
theorem pdf_image_filenames_sequential (render : Bytes → Bytes) (d : PdfDocument) :
    (convert_pdf_to_images render d).1.length = page_count d ∧
    (convert_pdf_to_images render d).1.map Prod.fst
      = (List.range (page_count d)).map (fun i => pageFileName (i + 1)) ∧
    ((convert_pdf_to_images render d).1.map Prod.fst).Nodup ∧
    pageFileName 1 = "page_001.png" ∧
    (∀ k, decodeDigits (format03 k) = k) ∧
    (∀ k, 3 ≤ (format03 k).data.length) := by
  refine ⟨?_, ?_, convert_names_nodup render d, ?_, decodeDigits_format03, ?_⟩
  · simp [convert_pdf_to_images]
  · simp [convert_pdf_to_images]
  · rfl
  · intro k
    show 3 ≤ ((List.replicate (3 - (natDigits k).length) 0 ++ natDigits k).map digitChar).length
    rw [List.length_map, List.length_append, List.length_replicate]
    omega

/-- C3: in any batch, a selected PDF whose source file is missing, or whose
conversion raises an exception, is reported as a failure (`False`, no
bundle); the documents before and after it are still processed normally,
and the driver's final report counts the successes against the total number
of selected documents (the failed one adds one to the total and nothing to
the successes). -/
theorem batch_failure_isolation (render : Bytes → Bytes) (dpi : Nat)
    (l1 l2 : List PdfJob) (j : PdfJob)
    (hj : endsWithStr j.filename ".pdf" = true)
    (hfail : j.srcExists = false ∨ ∃ e, j.source = Except.error e) :
    (convert_single_pdf render dpi j) = (none, false) ∧
    convert_all render dpi (l1 ++ j :: l2)
      = BatchReport.summary
          ((pdfFilesOf l1).countP (fun x => (convert_single_pdf render dpi x).2)
            + (pdfFilesOf l2).countP (fun x => (convert_single_pdf render dpi x).2))
          ((pdfFilesOf l1).length + 1 + (pdfFilesOf l2).length) := by
  have hsingle : convert_single_pdf render dpi j = (none, false) := by
    rcases hfail with hmiss | ⟨e, herr⟩
    · simp [convert_single_pdf, hmiss]
    · by_cases hsx : j.srcExists = false
      · simp [convert_single_pdf, hsx]
      · simp [convert_single_pdf, hsx, herr]
  refine ⟨hsingle, ?_⟩
  have hfiles : pdfFilesOf (l1 ++ j :: l2) = pdfFilesOf l1 ++ j :: pdfFilesOf l2 := by
    simp [pdfFilesOf, List.filter_append, List.filter_cons, hj]
  have hne : (pdfFilesOf l1 ++ j :: pdfFilesOf l2).isEmpty = false := by
    simp
  unfold convert_all
  rw [hfiles]
  simp only [hne, Bool.false_eq_true, if_false, foldl_count, Nat.zero_add]
  have hcount : (pdfFilesOf l1 ++ j :: pdfFilesOf l2).countP
      (fun x => (convert_single_pdf render dpi x).2)
      = (pdfFilesOf l1).countP (fun x => (convert_single_pdf render dpi x).2)
        + (pdfFilesOf l2).countP (fun x => (convert_single_pdf render dpi x).2) := by
    rw [List.countP_append, List.countP_cons]
    simp [hsingle]
  rw [hcount]
  simp only [List.length_append, List.length_cons]
  congr 1
  omega

theorem batch_failure_isolation_witness :
    (convert_single_pdf (fun x => x) 200
        { filename := "b.pdf", srcExists := false, source := Except.error "missing" })
      = (none, false) ∧
    convert_all (fun x => x) 200
        [{ filename := "a.pdf", srcExists := true, source := Except.ok { pages := [[0]] } },
         { filename := "b.pdf", srcExists := false, source := Except.error "missing" },
         { filename := "c.pdf", srcExists := true,
           source := Except.ok { pages := [[1], [2]] } }]
      = BatchReport.summary 2 3 := by
  have h := batch_failure_isolation (fun x => x) 200
    [{ filename := "a.pdf", srcExists := true, source := Except.ok { pages := [[0]] } }]
    [{ filename := "c.pdf", srcExists := true, source := Except.ok { pages := [[1], [2]] } }]
    { filename := "b.pdf", srcExists := false, source := Except.error "missing" }
    (by decide) (Or.inl rfl)
  exact ⟨h.1, h.2.trans (by decide)⟩

/-- C4: in the generated viewer, starting from zoom level `1.0`, after any
finite sequence of zoom-in, zoom-out and reset actions the zoom level stays
within `[0.5, 3.0]`; each zoom-in adds `0.2` clamped above at `3.0`, each
zoom-out subtracts `0.2` clamped below at `0.5`, and reset returns to
`1.0`. -/
theorem zoom_level_clamped :
    (∀ acts : List ZoomAction, 1/2 ≤ zoomAfter acts ∧ zoomAfter acts ≤ 3) ∧
    (∀ z : ℚ, zoomStep z ZoomAction.zin = min (z + 2/10) 3) ∧
    (∀ z : ℚ, zoomStep z ZoomAction.zout = max (z - 2/10) (1/2)) ∧
    (∀ z : ℚ, zoomStep z ZoomAction.reset = 1) := by
  refine ⟨?_, fun _ => rfl, fun _ => rfl, fun _ => rfl⟩
  have key : ∀ (acts : List ZoomAction) (z : ℚ), 1/2 ≤ z → z ≤ 3 →
      1/2 ≤ acts.foldl zoomStep z ∧ acts.foldl zoomStep z ≤ 3 := by
    intro acts
    induction acts with
    | nil => intro z h1 h2; exact ⟨h1, h2⟩
    | cons a l ih =>
      intro z h1 h2
      rw [List.foldl_cons]
      apply ih
      · cases a with
        | zin => exact le_min (by linarith) (by norm_num)
        | zout => exact le_max_right _ _
        | reset => norm_num [zoomStep]
      · cases a with
        | zin => exact min_le_right _ _
        | zout => exact max_le (by linarith) (by norm_num)
        | reset => norm_num [zoomStep]
  intro acts
  exact key acts 1 (by norm_num) (by norm_num)

/-- C5 counterexample: in a viewer for a 5-page document, a direct
page-number entry whose text does not parse to a number (`parseInt` yields
`NaN`, modelled by `none`) passes both clamp comparisons unchanged, so
`jumpToPage` calls `loadPage(NaN)`: not every value passed to `loadPage` is
a page number in `[1, page_count]`. -/
theorem page_nav_nan_counterexample :
    ((navRun 5 [NavAction.jump none]).calls.all (callInRange 5)) = false := by
  decide

/-- C5 amended: in a viewer for a document with at least one page, starting
at page 1, for every sequence of previous-page, next-page and direct
page-number-entry actions in which every entered value parses to a number
(`parseInt` does not return `NaN`), every page number passed to `loadPage`
lies in `[1, page_count]`. -/
theorem page_nav_in_range (pc : Int) (acts : List NavAction)
    (hpc : 1 ≤ pc)
    (hnum : ∀ v, NavAction.jump v ∈ acts → v.isSome = true) :
    (navRun pc acts).calls.all (callInRange pc) = true := by
  have key : ∀ (l : List NavAction) (s : NavState),
      (∀ v, NavAction.jump v ∈ l → v.isSome = true) →
      (∃ p, s.currentPage = some p ∧ 1 ≤ p ∧ p ≤ pc) →
      s.calls.all (callInRange pc) = true →
      (l.foldl (navStep pc) s).calls.all (callInRange pc) = true := by
    intro l
    induction l with
    | nil => intro s _ _ hcalls; simpa using hcalls
    | cons a l ih =>
      intro s hnum hcur hcalls
      obtain ⟨p, hp, hp1, hp2⟩ := hcur
      rw [List.foldl_cons]
      have hnum' : ∀ v, NavAction.jump v ∈ l → v.isSome = true := by
        intro v hv
        exact hnum v (List.mem_cons_of_mem _ hv)
      cases a with
      | prev =>
        by_cases h : jsLt (some 1) s.currentPage = true
        · have hlt : 1 < p := by
            rw [hp] at h
            simpa [jsLt] using h
          have hstep : navStep pc s NavAction.prev
              = loadPage s (s.currentPage.map (fun x => x - 1)) := by
            simp only [navStep, h, if_true]
          rw [hstep]
          refine ih _ hnum' ⟨p - 1, by simp [loadPage, hp], by omega, by omega⟩ ?_
          simp [loadPage, hp, List.all_append, hcalls, callInRange]
          omega
        · have hstep : navStep pc s NavAction.prev = s := by
            simp only [navStep, h, Bool.false_eq_true, if_false]
          rw [hstep]
          exact ih s hnum' ⟨p, hp, hp1, hp2⟩ hcalls
      | next =>
        by_cases h : jsLt s.currentPage (some pc) = true
        · have hlt : p < pc := by
            rw [hp] at h
            simpa [jsLt] using h
          have hstep : navStep pc s NavAction.next
              = loadPage s (s.currentPage.map (fun x => x + 1)) := by
            simp only [navStep, h, if_true]
          rw [hstep]
          refine ih _ hnum' ⟨p + 1, by simp [loadPage, hp], by omega, by omega⟩ ?_
          simp [loadPage, hp, List.all_append, hcalls, callInRange]
          omega
        · have hstep : navStep pc s NavAction.next = s := by
            simp only [navStep, h, Bool.false_eq_true, if_false]
          rw [hstep]
          exact ih s hnum' ⟨p, hp, hp1, hp2⟩ hcalls
      | jump v =>
        obtain ⟨k, rfl⟩ := Option.isSome_iff_exists.mp (hnum v (by simp))
        simp only [navStep]
        set p1 : Option Int := if jsLt (some k) (some 1) then some 1 else some k with hp1def
        have hp1some : ∃ k1, p1 = some k1 ∧ 1 ≤ k1 := by
          by_cases hk : jsLt (some k) (some 1) = true
          · exact ⟨1, by simp [hp1def, hk], le_refl 1⟩
          · refine ⟨k, by simp [hp1def, hk], ?_⟩
            simp [jsLt] at hk
            omega
        obtain ⟨k1, hk1, hk1ge⟩ := hp1some
        rw [hk1]
        set p2 : Option Int := if jsLt (some pc) (some k1) then some pc else some k1
          with hp2def
        have hp2some : ∃ k2, p2 = some k2 ∧ 1 ≤ k2 ∧ k2 ≤ pc := by
          by_cases hk : jsLt (some pc) (some k1) = true
          · exact ⟨pc, by simp [hp2def, hk], hpc, le_refl pc⟩
          · refine ⟨k1, by simp [hp2def, hk], hk1ge, ?_⟩
            simp [jsLt] at hk
            omega
        obtain ⟨k2, hk2, hk2ge, hk2le⟩ := hp2some
        rw [hk2]
        refine ih (loadPage s (some k2)) hnum'
          ⟨k2, by simp [loadPage], hk2ge, hk2le⟩ ?_
        simp [loadPage, List.all_append, hcalls, callInRange]
        omega
  refine key acts (loadPage { currentPage := some 1, calls := [] } (some 1)) hnum
    ⟨1, rfl, le_refl 1, hpc⟩ ?_
  simp [loadPage, callInRange]
  omega

theorem page_nav_in_range_witness :
    (navRun 5 [NavAction.next, NavAction.jump (some 100), NavAction.prev]).calls.all
      (callInRange 5) = true := by
  refine page_nav_in_range 5 [NavAction.next, NavAction.jump (some 100), NavAction.prev]
    (by norm_num) ?_
  intro v hv
  simp only [List.mem_cons, List.not_mem_nil, or_false] at hv
  rcases hv with h | h | h
  · cases h
  · injection h with h2
    rw [h2]
    rfl
  · cases h

/-- C6: a successfully converted single-image source places exactly one
image file in the bundle's `images/` directory, and its content is
byte-identical to the source file's content (the copy leaves the bytes
unchanged). -/
theorem single_image_copy_identical (j : ImageJob) (content : Bytes)
    (hex : j.srcExists = true) (hsrc : j.source = Except.ok content) :
    ∃ b, (convert_single_image j).1 = some b ∧
      b.images = [(j.filename, content)] ∧
      b.images.length = 1 := by
  refine ⟨{ images := copy_image_to_output [] j.filename content,
            metadata := imageMetadata (splitext j.filename).1 j.filename
              (splitext j.filename).2 }, ?_, ?_, ?_⟩
  · simp [convert_single_image, hex, hsrc]
  · simp [copy_image_to_output, writeFile]
  · simp [copy_image_to_output, writeFile]

theorem single_image_copy_identical_witness :
    ∃ b, (convert_single_image
        { filename := "pic.JPG", isFile := true, srcExists := true,
          source := Except.ok [7, 8, 9] }).1 = some b ∧
      b.images = [("pic.JPG", ([7, 8, 9] : Bytes))] ∧
      b.images.length = 1 :=
  single_image_copy_identical
    { filename := "pic.JPG", isFile := true, srcExists := true,
      source := Except.ok [7, 8, 9] }
    [7, 8, 9] rfl rfl

/-- C7: with zero eligible files in the source folder, each batch driver
takes its early return (a total function of the listing: nothing is
raised), emits the "no files found" report, and the number of successful
conversions that report conveys is zero. -/
theorem empty_folder_zero_conversions (render : Bytes → Bytes) (dpi : Nat)
    (listing : List PdfJob) (ilisting : List ImageJob)
    (h1 : pdfFilesOf listing = []) (h2 : imageFilesOf ilisting = []) :
    convert_all render dpi listing = BatchReport.noFilesFound ∧
    convert_all_images true ilisting = BatchReport.noFilesFound ∧
    successesReported (convert_all render dpi listing) = 0 ∧
    successesReported (convert_all_images true ilisting) = 0 := by
  have ha : convert_all render dpi listing = BatchReport.noFilesFound := by
    simp [convert_all, h1]
  have hb : convert_all_images true ilisting = BatchReport.noFilesFound := by
    simp [convert_all_images, h2]
  exact ⟨ha, hb, by rw [ha]; rfl, by rw [hb]; rfl⟩

theorem empty_folder_zero_conversions_witness :
    convert_all (fun x => x) 200
        [{ filename := "readme.txt", srcExists := true,
           source := Except.ok { pages := [] } }]
      = BatchReport.noFilesFound ∧
    convert_all_images true
        [{ filename := "notes.txt", isFile := true, srcExists := true,
           source := Except.ok [] }]
      = BatchReport.noFilesFound ∧
    successesReported (convert_all (fun x => x) 200
        [{ filename := "readme.txt", srcExists := true,
           source := Except.ok { pages := [] } }]) = 0 ∧
    successesReported (convert_all_images true
        [{ filename := "notes.txt", isFile := true, srcExists := true,
           source := Except.ok [] }]) = 0 :=
  empty_folder_zero_conversions (fun x => x) 200
    [{ filename := "readme.txt", srcExists := true, source := Except.ok { pages := [] } }]
    [{ filename := "notes.txt", isFile := true, srcExists := true, source := Except.ok [] }]
    (by decide) (by decide)

/-- C8: every converted document's metadata record has `title` and the
source-filename field (`pdf_filename` for PDFs, `image_filename` for
images) as strings; `page_count` and `dpi` appear exactly in PDF records,
and `format` appears exactly in image records. -/
theorem metadata_fields_by_kind (render : Bytes → Bytes) (dpi : Nat)
    (jp : PdfJob) (d : PdfDocument) (ji : ImageJob) (content : Bytes)
    (h1 : jp.srcExists = true) (h2 : jp.source = Except.ok d)
    (h3 : ji.srcExists = true) (h4 : ji.source = Except.ok content) :
    ∃ bp bi, (convert_single_pdf render dpi jp).1 = some bp ∧
      (convert_single_image ji).1 = some bi ∧
      bp.metadata.map Prod.fst = ["title", "page_count", "pdf_filename", "dpi"] ∧
      bi.metadata.map Prod.fst = ["title", "type", "image_filename", "format"] ∧
      lookupField bp.metadata "title" = some (JsonValue.str (splitext jp.filename).1) ∧
      lookupField bp.metadata "pdf_filename" = some (JsonValue.str jp.filename) ∧
      lookupField bp.metadata "page_count" = some (JsonValue.num (page_count d)) ∧
      lookupField bp.metadata "dpi" = some (JsonValue.num dpi) ∧
      lookupField bi.metadata "title" = some (JsonValue.str (splitext ji.filename).1) ∧
      lookupField bi.metadata "image_filename" = some (JsonValue.str ji.filename) ∧
      lookupField bi.metadata "format" = some (JsonValue.str (splitext ji.filename).2) ∧
      "page_count" ∉ bi.metadata.map Prod.fst ∧
      "dpi" ∉ bi.metadata.map Prod.fst ∧
      "format" ∉ bp.metadata.map Prod.fst := by
  refine ⟨{ images := applyWrites [] (convert_pdf_to_images render d).1,
            viewer := get_html_template (splitext jp.filename).1 (page_count d) jp.filename,
            metadata := pdfMetadata (splitext jp.filename).1 (page_count d) jp.filename dpi },
          { images := copy_image_to_output [] ji.filename content,
            metadata := imageMetadata (splitext ji.filename).1 ji.filename
              (splitext ji.filename).2 },
          ?_, ?_, rfl, rfl, rfl, rfl, rfl, rfl, rfl, rfl, rfl, ?_, ?_, ?_⟩
  · simp only [convert_single_pdf, h1, h2]
    simp
    exact ⟨rfl, rfl⟩
  · simp [convert_single_image, h3, h4]
  · simp [imageMetadata]
  · simp [imageMetadata]
  · simp [pdfMetadata]

theorem metadata_fields_by_kind_witness :
    ∃ bp bi, (convert_single_pdf (fun x => x) 200
        { filename := "doc.pdf", srcExists := true,
          source := Except.ok { pages := [[1]] } }).1 = some bp ∧
      (convert_single_image
        { filename := "pic.JPG", isFile := true, srcExists := true,
          source := Except.ok [7] }).1 = some bi ∧
      bp.metadata.map Prod.fst = ["title", "page_count", "pdf_filename", "dpi"] ∧
      bi.metadata.map Prod.fst = ["title", "type", "image_filename", "format"] ∧
      lookupField bp.metadata "title" = some (JsonValue.str (splitext "doc.pdf").1) ∧
      lookupField bp.metadata "pdf_filename" = some (JsonValue.str "doc.pdf") ∧
      lookupField bp.metadata "page_count"
        = some (JsonValue.num (page_count { pages := [[1]] })) ∧
      lookupField bp.metadata "dpi" = some (JsonValue.num 200) ∧
      lookupField bi.metadata "title" = some (JsonValue.str (splitext "pic.JPG").1) ∧
      lookupField bi.metadata "image_filename" = some (JsonValue.str "pic.JPG") ∧
      lookupField bi.metadata "format" = some (JsonValue.str (splitext "pic.JPG").2) ∧
      "page_count" ∉ bi.metadata.map Prod.fst ∧
      "dpi" ∉ bi.metadata.map Prod.fst ∧
      "format" ∉ bp.metadata.map Prod.fst :=
  metadata_fields_by_kind (fun x => x) 200
    { filename := "doc.pdf", srcExists := true, source := Except.ok { pages := [[1]] } }
    { pages := [[1]] }
    { filename := "pic.JPG", isFile := true, srcExists := true, source := Except.ok [7] }
    [7] rfl rfl rfl rfl

/-- C9: PDF selection is case-sensitive while image selection is not: a
listed entry is selected for the PDF batch exactly when its name ends with
the lowercase suffix `.pdf` (so `X.PDF` is never selected, hence never
converted), while a listed regular file is selected for the image batch
exactly when its extension, lowercased, is one of the supported formats
(so `X.JPG` is selected). -/
theorem eligibility_case_sensitivity :
    (∀ (listing : List PdfJob) (j : PdfJob),
        j ∈ pdfFilesOf listing ↔ j ∈ listing ∧ endsWithStr j.filename ".pdf" = true) ∧
    endsWithStr "X.PDF" ".pdf" = false ∧
    endsWithStr "x.pdf" ".pdf" = true ∧
    pdfFilesOf [xPdfJob] = [] ∧
    (∀ (ilisting : List ImageJob) (j : ImageJob),
        j ∈ imageFilesOf ilisting ↔ j ∈ ilisting ∧ j.isFile = true ∧
          supported_image_formats.contains (lowerStr (splitext j.filename).2) = true) ∧
    lowerStr (splitext "X.JPG").2 = ".jpg" ∧
    imageFilesOf [xJpgJob] = [xJpgJob] := by
  refine ⟨?_, by decide, by decide, by decide, ?_, by decide, by decide⟩
  · intro listing j
    simp [pdfFilesOf, List.mem_filter]
  · intro ilisting j
    simp [imageFilesOf, List.mem_filter, imageEligible, Bool.and_eq_true]

/-- C10: the archive written by the packaging script contains a file met by
the directory walk exactly when its base name does not end in `.zip` and is
not the script's own base name; in particular no `.zip` file (neither the
newly created archive nor an old one) and not the script itself is ever
added. -/
theorem archive_excludes_zip_and_script :
    ∀ (entries : List WalkEntry) (e : WalkEntry),
      e ∈ create_archive entries ↔
        e ∈ entries ∧ endsWithStr e.name ".zip" = false ∧ e.name ≠ script_basename := by
  intro entries e
  unfold create_archive
  rw [List.mem_filter]
  constructor
  · rintro ⟨hmem, hcond⟩
    simp only [Bool.not_eq_true', Bool.or_eq_false_iff, beq_eq_false_iff_ne] at hcond
    exact ⟨hmem, hcond.2, hcond.1⟩
  · rintro ⟨hmem, hzip, hname⟩
    refine ⟨hmem, ?_⟩
    simp only [Bool.not_eq_true', Bool.or_eq_false_iff, beq_eq_false_iff_ne]
    exact ⟨hname, hzip⟩

end PdfToHtml
